import Mathlib

/-!
Shallow embedding of the archive-helper layer of this repository
(`handy_archives/__init__.py`): the `TarFile` and `ZipFile` subclasses with
their `extractfile` / `read_bytes` / `read_text` / `write_file` methods, the
`is_tarfile` prober, the `_normalize_nl` helper, and the extraction-filter
selection logic, together with the small pieces of the underlying standard
library (`tarfile`, `zipfile`, `os.path`) that those methods delegate to.

Paths and member names are modelled as `List Char`; member content as
`List Nat` (bytes); decoded text as `List Char` (code points validated by the
UTF-8 decoder).  Fallible operations return `Except Err α`; an `Except.error`
result models an exception raised before any mutation, so the caller's state
is unchanged on every error outcome.
-/

/-- Paths and archive member names: a Python `str` used as a path. -/
abbrev PStr := List Char

/-- Raw bytes: each element is one byte value `< 256`. -/
abbrev Bytes := List Nat

/-- Decoded text, as a list of characters. -/
abbrev Text := List Char

/-- The exception kinds raised by the embedded code.  `valueError` is the
`ValueError` raised by `ZipFile.write_file` on an open writing handle
(the WriteConflict of the spec); `tarError` covers `tarfile.TarError` and its
subclasses (`ReadError`, ...); `osError` covers `OSError` exceptions that are
not `tarError` (e.g. `FileNotFoundError` from `open` on a missing path). -/
inductive Err where
  | fileNotFound
  | valueError
  | isADirectoryError
  | unicodeDecodeError
  | tarError
  | osError
  deriving DecidableEq, Repr

deriving instance DecidableEq for Except

/-! ## `_normalize_nl` (source lines 439-443)

`text.replace("\r\n", "\n").replace("\r", "\n")` when `enable` is set,
the unmodified text otherwise.  Python's `str.replace` substitutes
non-overlapping occurrences left to right; for the two-character pattern
`"\r\n"` that is the recursion `replaceCRLF`, and for the single character
`"\r"` it is a pointwise map. -/

/-- `text.replace("\r\n", "\n")`: left-to-right, non-overlapping. -/
def replaceCRLF : Text → Text
  | [] => []
  | [a] => [a]
  | a :: b :: rest =>
      if a = '\r' ∧ b = '\n' then '\n' :: replaceCRLF rest
      else a :: replaceCRLF (b :: rest)

/-- `text.replace("\r", "\n")`. -/
def replaceCRchar (t : Text) : Text :=
  t.map fun c => if c = '\r' then '\n' else c

/-- `_normalize_nl(text, enable)` from the source. -/
def normalizeNl (t : Text) (enable : Bool) : Text :=
  if enable then replaceCRchar (replaceCRLF t) else t

/-! ## UTF-8 decoding (`bytes.decode("UTF-8")`)

Strict decoder: rejects truncated sequences, stray continuation bytes,
overlong encodings, surrogate code points and values above `0x10FFFF`,
like Python's strict `"UTF-8"` codec (which raises `UnicodeDecodeError`). -/

/-- Is `b` a UTF-8 continuation byte (`0x80 ≤ b < 0xC0`)? -/
def isCont (b : Nat) : Bool := 0x80 ≤ b ∧ b < 0xC0

/-- Strict UTF-8 decoding of a byte list into characters.
Errors model `UnicodeDecodeError` from `bytes.decode("UTF-8")`. -/
def utf8Decode : Bytes → Except Err Text
  | [] => .ok []
  | b :: rest =>
      if b < 0x80 then
        (utf8Decode rest).map (fun t => Char.ofNat b :: t)
      else if b < 0xC2 then
        -- stray continuation byte, or overlong two-byte lead 0xC0/0xC1
        .error .unicodeDecodeError
      else if b < 0xE0 then
        match rest with
        | c1 :: r =>
            if isCont c1 then
              (utf8Decode r).map
                (fun t => Char.ofNat ((b - 0xC0) * 0x40 + (c1 - 0x80)) :: t)
            else .error .unicodeDecodeError
        | _ => .error .unicodeDecodeError
      else if b < 0xF0 then
        match rest with
        | c1 :: c2 :: r =>
            if isCont c1 ∧ isCont c2
                ∧ (b = 0xE0 → 0xA0 ≤ c1)        -- overlong
                ∧ (b = 0xED → c1 < 0xA0) then   -- surrogates
              (utf8Decode r).map
                (fun t =>
                  Char.ofNat ((b - 0xE0) * 0x1000 + (c1 - 0x80) * 0x40 + (c2 - 0x80)) :: t)
            else .error .unicodeDecodeError
        | _ => .error .unicodeDecodeError
      else if b < 0xF5 then
        match rest with
        | c1 :: c2 :: c3 :: r =>
            if isCont c1 ∧ isCont c2 ∧ isCont c3
                ∧ (b = 0xF0 → 0x90 ≤ c1)        -- overlong
                ∧ (b = 0xF4 → c1 < 0x90) then   -- above 0x10FFFF
              (utf8Decode r).map
                (fun t =>
                  Char.ofNat
                    ((b - 0xF0) * 0x40000 + (c1 - 0x80) * 0x1000
                      + (c2 - 0x80) * 0x40 + (c3 - 0x80)) :: t)
            else .error .unicodeDecodeError
        | _ => .error .unicodeDecodeError
      else .error .unicodeDecodeError

example : normalizeNl ['\r', '\n', 'a', '\r'] true = ['\n', 'a', '\n'] := by decide

example : utf8Decode [0x68, 0x69] = .ok ['h', 'i'] := by decide

/-! ## POSIX path helpers (`os.path` as used by the source)

The source runs `os.path.splitdrive`, `os.path.normpath`, `os.path.abspath`
and `str.lstrip("/")` on member paths.  These are modelled in their POSIX
flavour (`os.sep = '/'`, `os.altsep = None`, `splitdrive` returns an empty
drive), matching the forward-slash member names both archive formats store.
All archive and source paths handled by the theorems are absolute, so
`abspath`'s prepend-the-working-directory step for relative paths is never
exercised and `abspath = normpath`. -/

/-- `s.split("/")` on a character list. -/
def splitSlash : PStr → List PStr
  | [] => [[]]
  | c :: r =>
      if c = '/' then [] :: splitSlash r
      else
        match splitSlash r with
        | h :: t => (c :: h) :: t
        | [] => [[c]]

/-- `"/".join(comps)`. -/
def joinSlash (comps : List PStr) : PStr :=
  (comps.intersperse ['/']).flatten

/-- One step of CPython `posixpath.normpath`'s component loop: skip empty and
`"."` components, append a component unless it is a collapsible `".."`. -/
def normStep (root : Bool) (acc : List PStr) (comp : PStr) : List PStr :=
  if comp = [] ∨ comp = ['.'] then acc
  else if comp ≠ ['.', '.'] ∨ (¬root ∧ acc = []) ∨ acc.getLast? = some ['.', '.'] then
    acc ++ [comp]
  else if acc ≠ [] then acc.dropLast
  else acc

/-- CPython `posixpath.normpath`'s count of initial slashes: 1 normally,
2 for exactly two leading slashes (POSIX allows `//` to be distinct). -/
def initSlashes (s : PStr) : Nat :=
  if s.take 3 = ['/', '/', '/'] then 1
  else if s.take 2 = ['/', '/'] then 2
  else if s.take 1 = ['/'] then 1
  else 0

/-- CPython `posixpath.normpath`. -/
def posixNormpath (s : PStr) : PStr :=
  if s = [] then ['.']
  else
    let root := initSlashes s
    let comps := (splitSlash s).foldl (normStep (root ≠ 0)) []
    let p := List.replicate root '/' ++ joinSlash comps
    if p = [] then ['.'] else p

/-- `os.path.abspath` on the absolute paths used here (see section comment). -/
def abspath (s : PStr) : PStr := posixNormpath s

example : posixNormpath "/tmp/./sub//a.txt".toList = "/tmp/sub/a.txt".toList := by decide
example : posixNormpath "/a/../../b".toList = "/b".toList := by decide
example : posixNormpath "a/..".toList = ['.'] := by decide

/-! ## Tar archives: `TarFile` (tape-style)

A tar member carries the fields the embedded methods inspect: its name, its
kind (`tarfile.TarInfo`'s type flag, collapsed to the kinds the spec's
Member Record distinguishes), its link target for link kinds, its stored
content for regular kinds, and its mtime. -/

inductive TarKind where
  | regular
  | directory
  | symlink
  | hardlink
  | other       -- character/block devices, FIFOs: kinds with no data stream
  deriving DecidableEq, Repr

structure TarMember where
  name : PStr
  kind : TarKind
  linkname : PStr := []
  content : Bytes := []
  mtime : Int := 0
  deriving DecidableEq, Repr

/-- An open tar archive handle: the member listing (format-native order), the
absolute path of the backing file as `tarfile` records it in `self.name`
(`None` for pure stream sources), the single-character open mode, and the
closed flag. -/
structure TarState where
  members : List TarMember
  name : Option PStr := none
  mode : Char := 'r'
  closed : Bool := false
  deriving DecidableEq, Repr

/-- `tarfile.TarFile._getmember(name)`: scan `reversed(self.getmembers())` for
the first entry with this name, `None` when there is none (so the most
recently added duplicate wins). -/
def getmemberTar (st : TarState) (name : PStr) : Option TarMember :=
  st.members.reverse.find? (fun m => m.name = name)

/-- `tarfile.TarFile._check(mode)`: raise `OSError` if the handle is closed or
its open mode is not among the allowed ones. -/
def tarCheck (st : TarState) (allowed : List Char) : Except Err Unit :=
  if st.closed then .error .osError
  else if st.mode ∈ allowed then .ok ()
  else .error .osError

/-- Stream resolution of `tarfile.TarFile.extractfile(tarinfo)`: a regular
member yields its stored bytes, a directory or special member yields no
stream (`None`), a link member is followed to its target
(`_find_link_target`; a missing target raises a `TarError`).  `fuel` bounds
the link chain: link cycles, which overflow the recursion in CPython, are
modelled as an error.  The stdlib's normalisation of symlink targets relative
to the member's directory is elided: no theorem below concerns link members. -/
def tarMemberStream (st : TarState) : Nat → TarMember → Except Err (Option Bytes)
  | _, ⟨_, .regular, _, c, _⟩ => .ok (some c)
  | _, ⟨_, .directory, _, _, _⟩ => .ok none
  | _, ⟨_, .other, _, _, _⟩ => .ok none
  | 0, ⟨_, .symlink, _, _, _⟩ => .error .tarError
  | 0, ⟨_, .hardlink, _, _, _⟩ => .error .tarError
  | fuel + 1, ⟨_, .symlink, link, _, _⟩ =>
      match getmemberTar st link with
      | none => .error .tarError
      | some t => tarMemberStream st fuel t
  | fuel + 1, ⟨_, .hardlink, link, _, _⟩ =>
      match getmemberTar st link with
      | none => .error .tarError
      | some t => tarMemberStream st fuel t

/-- The argument of `extractfile`: a member name string or an info record. -/
inductive TarMemberArg where
  | byName (s : PStr)
  | byInfo (m : TarMember)
  deriving DecidableEq, Repr

/-- `TarFile.extractfile` (source lines 162-184): a string argument is first
resolved through `_getmember`, raising `FileNotFoundError` on a miss; then the
base-class `extractfile` runs, and a `None` stream (directory or special
member) is also turned into `FileNotFoundError`. -/
def tarExtractfile (st : TarState) (arg : TarMemberArg) : Except Err Bytes :=
  let fd : Except Err (Option Bytes) :=
    match arg with
    | .byName s =>
        match getmemberTar st s with
        | none => .error .fileNotFound
        | some m => tarMemberStream st st.members.length m
    | .byInfo m => tarMemberStream st st.members.length m
  match fd with
  | .error e => .error e
  | .ok none => .error .fileNotFound
  | .ok (some bs) => .ok bs

/-- `TarFile.read_bytes` (source lines 207-217): open the stream as a scoped
resource and read it to completion. -/
def tarReadBytes (st : TarState) (arg : TarMemberArg) : Except Err Bytes :=
  tarExtractfile st arg

/-- `TarFile.read_text` (source lines 186-205):
`_normalize_nl(self.read_bytes(member).decode("UTF-8"), normalize_nl)`. -/
def tarReadText (st : TarState) (arg : TarMemberArg) (normalize_nl : Bool) :
    Except Err Text := do
  let bs ← tarReadBytes st arg
  let t ← utf8Decode bs
  pure (normalizeNl t normalize_nl)

/-! ## Zip archives: `ZipFile` (index-style) -/

/-- A zip member: the central-directory entry name (directories end in `/`)
and the stored content (empty for directory entries). -/
structure ZipMember where
  name : PStr
  content : Bytes := []
  deriving DecidableEq, Repr

/-- An open zip archive handle: the member listing, the `_writing` flag
(`True` while a per-entry writing handle from `open(zinfo, "w")` is open),
and the path of the backing file.  `zipfile` keeps `NameToInfo` as a dict
filled in listing order, so lookup returns the last entry with a name. -/
structure ZipState where
  members : List ZipMember
  writing : Bool := false
  filename : Option PStr := none
  deriving DecidableEq, Repr

/-- `self.NameToInfo.get(member)`: last-in-listing-order entry wins. -/
def zipNameToInfo (st : ZipState) (name : PStr) : Option ZipMember :=
  st.members.reverse.find? (fun m => m.name = name)

/-- The argument of `ZipFile.extractfile`: a name or an info record (the
record must be one of the archive's own entries for `open` to succeed). -/
inductive ZipMemberArg where
  | byName (s : PStr)
  | byInfo (m : ZipMember)
  deriving DecidableEq, Repr

/-- `ZipFile.extractfile` (source lines 294-325): a string argument is
resolved through `NameToInfo.get`, raising `FileNotFoundError` on a miss;
the resulting info object is handed to `ZipFile.open`, which returns a
stream over the stored data with no check of the member's kind — for a
directory entry that stream simply holds zero bytes. -/
def zipExtractfile (st : ZipState) (arg : ZipMemberArg) : Except Err Bytes :=
  match arg with
  | .byInfo m => .ok m.content
  | .byName s =>
      match zipNameToInfo st s with
      | none => .error .fileNotFound
      | some m => .ok m.content

/-- `ZipFile.read_bytes` (source lines 350-365). -/
def zipReadBytes (st : ZipState) (arg : ZipMemberArg) : Except Err Bytes :=
  zipExtractfile st arg

/-- `ZipFile.read_text` (source lines 327-348). -/
def zipReadText (st : ZipState) (arg : ZipMemberArg) (normalize_nl : Bool) :
    Except Err Text := do
  let bs ← zipReadBytes st arg
  let t ← utf8Decode bs
  pure (normalizeNl t normalize_nl)

/-! ## Filesystem model and `write_file`

The filesystem is a map from absolute paths to entries.  A `dir` or `missing`
entry makes `os.path.isfile` false; `missing` also covers special files
(devices, FIFOs, broken symlinks), which `isfile` likewise rejects. -/

inductive FsEntry where
  | file (content : Bytes) (mtime : Int)
  | dir
  | missing
  deriving DecidableEq, Repr

abbrev Fs := PStr → FsEntry

/-- `os.path.isfile(p)`. -/
def osIsfile (fs : Fs) (p : PStr) : Bool :=
  match fs p with
  | .file _ _ => true
  | _ => false

/-- Arcname normalisation of `tarfile.TarFile.gettarinfo` (the stdlib step
both branches of `TarFile.write_file` delegate to): default the arcname to
the source path, drop the drive (`os.path.splitdrive`, trivial on POSIX),
replace `os.sep` by `/` (identity on POSIX) and strip leading slashes
(`lstrip("/")`).  Note there is no `normpath` here: interior `.` segments
and doubled slashes are kept. -/
def tarArcnameOf (name : PStr) (arcname : Option PStr) : PStr :=
  (arcname.getD name).dropWhile (· = '/')

/-- `tarfile.TarFile.add(name, arcname, recursive=False)`, the stdlib method
`TarFile.write_file` calls when `mtime` is omitted: check the mode, skip
silently when the source is the archive's own backing file, then build the
member via `gettarinfo` (stat data) and append header plus content. -/
def tarAdd (fs : Fs) (st : TarState) (filename : PStr) (arcname : Option PStr) :
    Except Err TarState :=
  match tarCheck st ['a', 'w', 'x'] with
  | .error e => .error e
  | .ok _ =>
      if st.name = some (abspath filename) then
        .ok st   -- "tarfile: Skipped" debug message, no write
      else
        match fs filename with
        | .file c mt =>
            .ok { st with
              members := st.members ++ [⟨tarArcnameOf filename arcname, .regular, [], c, mt⟩] }
        | .dir =>
            -- recursive=False: only the directory entry itself is added
            .ok { st with
              members := st.members ++ [⟨tarArcnameOf filename arcname, .directory, [], [], 0⟩] }
        | .missing => .error .osError   -- os.lstat raises

/-- `TarFile.write_file` (source lines 219-266): reject non-regular sources
with `IsADirectoryError`; with no explicit `mtime` delegate to `add`; with an
explicit `mtime` default the arcname, check the mode, skip when the source is
the archive itself, then build the member via `gettarinfo`, override its
mtime, and append it with the file's content. -/
def tarWriteFile (fs : Fs) (st : TarState) (filename : PStr)
    (arcname : Option PStr) (mtime : Option Int) : Except Err TarState :=
  if ¬ osIsfile fs filename then .error .isADirectoryError
  else
    match mtime with
    | none => tarAdd fs st filename arcname
    | some mt =>
        let arc := arcname.getD filename
        match tarCheck st ['a', 'w', 'x'] with
        | .error e => .error e
        | .ok _ =>
            if st.name = some (abspath filename) then
              .ok st   -- "Skip if somebody tries to archive the archive..."
            else
              match fs filename with
              | .file c _ =>
                  .ok { st with
                    members := st.members ++ [⟨tarArcnameOf filename (some arc), .regular, [], c, mt⟩] }
              | _ => .error .osError

/-- Arcname normalisation of `ZipFile.write_file` (source lines 397-399),
identical to the one in `zipfile.ZipInfo.from_file` used by the
`mtime = None` branch: `os.path.normpath(os.path.splitdrive(arcname)[1])`
followed by stripping every leading `os.sep`/`os.altsep` character. -/
def zipArcnameNormalize (arcname : PStr) : PStr :=
  (posixNormpath arcname).dropWhile (· = '/')

/-- The member name `ZipFile` stores: the arcname defaulted to the source
path, then normalised. -/
def zipArcnameOf (filename : PStr) (arcname : Option PStr) : PStr :=
  zipArcnameNormalize (arcname.getD filename)

/-- `zipfile.ZipFile.write(filename, arcname)`, the stdlib method
`ZipFile.write_file` calls when `mtime` is omitted: build a `ZipInfo` via
`ZipInfo.from_file` (stat data, normalised arcname, trailing `/` appended for
directories) and copy the file's bytes in.  There is no self-archiving guard
anywhere on this path. -/
def zipWrite (fs : Fs) (st : ZipState) (filename : PStr) (arcname : Option PStr) :
    Except Err ZipState :=
  match fs filename with
  | .file c _ =>
      .ok { st with members := st.members ++ [⟨zipArcnameOf filename arcname, c⟩] }
  | .dir =>
      .ok { st with members := st.members ++ [⟨zipArcnameOf filename arcname ++ ['/'], []⟩] }
  | .missing => .error .osError   -- os.stat raises

/-- `ZipFile.write_file` (source lines 367-413): first reject the call with
`ValueError` while an open writing handle exists (`self._writing`), then
reject non-regular sources with `IsADirectoryError`; with no explicit `mtime`
delegate to `zipfile.ZipFile.write`, otherwise build a `ZipInfo` with the
normalised arcname and copy the file's bytes through a fresh writing handle
(closed again before returning).  Compression settings and the packed
`external_attr` mode word are carried by fields no theorem below examines
and are elided from `ZipMember`. -/
def zipWriteFile (fs : Fs) (st : ZipState) (filename : PStr)
    (arcname : Option PStr) (mtime : Option Int) : Except Err ZipState :=
  if st.writing then .error .valueError
  else if ¬ osIsfile fs filename then .error .isADirectoryError
  else
    match mtime with
    | none => zipWrite fs st filename arcname
    | some _ =>
        match fs filename with
        | .file c _ =>
            .ok { st with members := st.members ++ [⟨zipArcnameOf filename arcname, c⟩] }
        | _ => .error .osError

/-- Closing the open per-entry writing handle (`_ZipWriteFile.close`), which
resets `self._zipfile._writing` to `False` after flushing the entry. -/
def zipFinalizeCursor (st : ZipState) : ZipState :=
  { st with writing := false }

/-! ## The format prober: `is_tarfile` (source lines 419-436)

`is_tarfile` opens the source with `TarFile.open`, closes the handle and
returns `True`; only `tarfile.TarError` is caught and converted to `False`.
Opening parses at most the first 512-byte header block
(`tarfile.TarFile.__init__` reads `self.firstmember = self.next()`), so the
open step is modelled down to that first block: `tarfile.TarInfo.frombuf`'s
length checks, end-of-archive check and checksum validation (`nti` on the
checksum field against `calc_chksums`).  Field parsing after a valid
checksum and the `r:*` compression probing (whose failures also surface as
`ReadError`, a `TarError`) are elided; the byte sources in the theorems are
uncompressed. -/

/-- `tarfile.nts`: cut the field at the first NUL byte. -/
def ntsTrunc (bs : Bytes) : Bytes := bs.takeWhile (· ≠ 0)

/-- Strip the surrounding spaces `int()` tolerates. -/
def stripSpaces (bs : Bytes) : Bytes :=
  ((bs.dropWhile (· = 0x20)).reverse.dropWhile (· = 0x20)).reverse

/-- ASCII octal digit `0`-`7`. -/
def isOctalDigit (b : Nat) : Bool := 0x30 ≤ b ∧ b ≤ 0x37

/-- Value of an octal digit string. -/
def octalValue (bs : Bytes) : Nat :=
  bs.foldl (fun acc b => acc * 8 + (b - 0x30)) 0

/-- `tarfile.nti`: a leading `0o200`/`0o377` byte selects base-256 encoding;
otherwise the NUL-truncated field is parsed as an octal string (an empty
field counts as 0, anything `int(_, 8)` rejects is an `InvalidHeaderError`,
modelled as `none`). -/
def nti (bs : Bytes) : Option Int :=
  match bs with
  | [] => some 0
  | b0 :: rest =>
      if b0 = 0o200 ∨ b0 = 0o377 then
        let n : Int := rest.foldl (fun acc b => acc * 256 + (b : Int)) 0
        if b0 = 0o377 then some (n - (256 : Int) ^ rest.length) else some n
      else
        let trunc := ntsTrunc (b0 :: rest)
        if trunc = [] then some 0
        else
          let digits := stripSpaces trunc
          if digits ≠ [] ∧ digits.all isOctalDigit ∧ trunc.all (· < 0x80) then
            some (octalValue digits)
          else none

/-- `tarfile.calc_chksums`, unsigned variant: the checksum field (bytes
148-155) counts as eight spaces. -/
def unsignedChksum (block : Bytes) : Int :=
  256 + ((block.take 148).foldl (fun a b => a + (b : Int)) 0)
      + ((block.drop 156).foldl (fun a b => a + (b : Int)) 0)

/-- `tarfile.calc_chksums`, signed variant (bytes read as `int8`). -/
def signedChksum (block : Bytes) : Int :=
  let sgn : Nat → Int := fun b => if b < 128 then (b : Int) else (b : Int) - 256
  256 + ((block.take 148).foldl (fun a b => a + sgn b) 0)
      + ((block.drop 156).foldl (fun a b => a + sgn b) 0)

/-- `tarfile.TarInfo.frombuf`'s checksum validation of a full non-zero
512-byte header block. -/
def tarHeaderValid (block : Bytes) : Bool :=
  match nti ((block.drop 148).take 8) with
  | none => false
  | some ch => ch = unsignedChksum block ∨ ch = signedChksum block

/-- The parse step of `TarFile.open` on an uncompressed byte source, down to
the first header block (see the section comment): an empty source and a
source shorter than one block are `ReadError`s, an end-of-archive NUL block
means a valid archive of zero members, anything else must pass the checksum
validation. -/
def taropen (bs : Bytes) : Except Err Unit :=
  if bs = [] then .error .tarError                 -- ReadError("empty file")
  else if bs.length < 512 then .error .tarError    -- truncated header
  else
    let block := bs.take 512
    if block.all (· = 0) then .ok ()               -- end-of-archive marker
    else if tarHeaderValid block then .ok ()
    else .error .tarError                          -- invalid header at offset 0

/-- A probe source: an in-memory file object, or a filesystem path that may
not exist. -/
inductive TarSource where
  | fileobj (content : Bytes)
  | path (present : Bool) (content : Bytes)
  deriving DecidableEq, Repr

/-- `TarFile.open` on a probe source: a missing path raises
`FileNotFoundError` (an `OSError` that is not a `TarError`) from the
underlying `open` call before any tar parsing happens. -/
def tarOpenSource (s : TarSource) : Except Err Unit :=
  match s with
  | .fileobj bs => taropen bs
  | .path present bs => if present then taropen bs else .error .osError

/-- `is_tarfile` (source lines 419-436): open, close, return `True`;
`except tarfile.TarError: return False`.  Every other exception — in
particular the `OSError` from a nonexistent path — propagates to the
caller. -/
def is_tarfile (s : TarSource) : Except Err Bool :=
  match tarOpenSource s with
  | .ok _ => .ok true
  | .error .tarError => .ok false
  | .error e => .error e

/-! ## Extraction-filter selection (source lines 57-72 and 114-160)

`TarFile.extract`/`TarFile.extractall` take `filter=None` and forward it:
on Pythons with PEP 706 (`tarfile.FilterError` exists) the argument goes to
the stdlib method unchanged, and the stdlib resolves `None` to
`self.extraction_filter` or its own default — `fully_trusted` (with a
`DeprecationWarning`) on the CPython versions this package's shim targets;
on older Pythons the `filter` argument is dropped entirely and the stdlib
extracts unfiltered, and the module's fallback `fully_trusted_filter` /
`tar_filter` / `data_filter` definitions are all the identity.  `ZipFile`
overrides neither `extract` nor `extractall` and `zipfile` has no filter
parameter at all. -/

inductive FilterPolicy where
  | fullyTrusted
  | tarCompat
  | dataOnly
  deriving DecidableEq, Repr

/-- The filter argument `TarFile.extractall`/`extract` forward to the stdlib:
the caller's argument on PEP 706 Pythons, nothing on the shim branch. -/
def tarForwardedFilter (hasFilterError : Bool) (callerFilter : Option FilterPolicy) :
    Option FilterPolicy :=
  if hasFilterError then callerFilter else none

/-- The stdlib default a forwarded `None` resolves to (CPython 3.12/3.13
`tarfile`, with `self.extraction_filter` unset): `fully_trusted`, plus a
`DeprecationWarning`. -/
def stdlibDefaultTarFilter : FilterPolicy := .fullyTrusted

/-- The extraction policy in effect for a `TarFile.extract`/`extractall`
call: the forwarded filter if any, otherwise the stdlib default; the shim
branch extracts unfiltered, which is `fully_trusted` behaviour. -/
def tarEffectivePolicy (hasFilterError : Bool) (callerFilter : Option FilterPolicy) :
    FilterPolicy :=
  match tarForwardedFilter hasFilterError callerFilter with
  | some p => p
  | none => if hasFilterError then stdlibDefaultTarFilter else .fullyTrusted

/-- Fallback `fully_trusted_filter` (source lines 59-60): identity. -/
def fullyTrustedFilterFallback (member : TarMember) (_destPath : PStr) : TarMember :=
  member

/-- Fallback `tar_filter` (source lines 62-63): identity. -/
def tarFilterFallback (member : TarMember) (_destPath : PStr) : TarMember :=
  member

/-- Fallback `data_filter` (source lines 65-66): identity. -/
def dataFilterFallback (member : TarMember) (_destPath : PStr) : TarMember :=
  member

/-! # Helper lemmas -/

theorem replaceCRchar_no_cr (t : Text) : '\r' ∉ replaceCRchar t := by
  intro h
  simp only [replaceCRchar, List.mem_map] at h
  obtain ⟨c, -, hc⟩ := h
  by_cases h1 : c = '\r' <;> simp [h1] at hc

theorem replaceCRLF_of_no_cr (t : Text) (h : '\r' ∉ t) : replaceCRLF t = t := by
  induction t with
  | nil => rfl
  | cons a r ih =>
      have ha : a ≠ '\r' := fun e => h (e ▸ List.mem_cons_self a r)
      cases r with
      | nil => rfl
      | cons b r2 =>
          have h2 : '\r' ∉ b :: r2 := fun m => h (List.mem_cons_of_mem a m)
          have hcond : ¬(a = '\r' ∧ b = '\n') := fun hc => ha hc.1
          simp [replaceCRLF, hcond, ih h2]

theorem replaceCRchar_of_no_cr (t : Text) (h : '\r' ∉ t) : replaceCRchar t = t := by
  induction t with
  | nil => rfl
  | cons a r ih =>
      have ha : a ≠ '\r' := fun e => h (e ▸ List.mem_cons_self a r)
      have h2 : '\r' ∉ r := fun m => h (List.mem_cons_of_mem a m)
      simp [replaceCRchar, ha] at ih ⊢
      exact ih h2

theorem normalizeNl_no_cr (t : Text) : '\r' ∉ normalizeNl t true := by
  simpa [normalizeNl] using replaceCRchar_no_cr (replaceCRLF t)

theorem normalizeNl_of_no_cr (t : Text) (h : '\r' ∉ t) : normalizeNl t true = t := by
  simp [normalizeNl, replaceCRLF_of_no_cr t h, replaceCRchar_of_no_cr t h]

theorem getmemberTar_eq_none (st : TarState) (name : PStr)
    (h : ∀ m ∈ st.members, m.name ≠ name) : getmemberTar st name = none := by
  simp only [getmemberTar, List.find?_eq_none, List.mem_reverse]
  intro m hm
  simpa using h m hm

theorem zipNameToInfo_eq_none (st : ZipState) (name : PStr)
    (h : ∀ m ∈ st.members, m.name ≠ name) : zipNameToInfo st name = none := by
  simp only [zipNameToInfo, List.find?_eq_none, List.mem_reverse]
  intro m hm
  simpa using h m hm

/-! # Claims -/

/-- C7: when normalization is enabled, `_normalize_nl` rewrites every CRLF
pair and every standalone CR to LF (no carriage return survives, a CRLF pair
becomes a single LF, a CR not followed by LF becomes an LF), it is idempotent,
and it is the identity on text containing no carriage return. -/
theorem c7_normalize_newlines :
    (∀ t : Text, '\r' ∉ normalizeNl t true) ∧
    (∀ t : Text, normalizeNl ('\r' :: '\n' :: t) true = '\n' :: normalizeNl t true) ∧
    (∀ t : Text, t.head? ≠ some '\n' →
      normalizeNl ('\r' :: t) true = '\n' :: normalizeNl t true) ∧
    (∀ t : Text, normalizeNl (normalizeNl t true) true = normalizeNl t true) ∧
    (∀ t : Text, '\r' ∉ t → normalizeNl t true = t) := by
  refine ⟨normalizeNl_no_cr, ?_, ?_, ?_, normalizeNl_of_no_cr⟩
  · intro t
    simp [normalizeNl, replaceCRLF, replaceCRchar]
  · intro t ht
    cases t with
    | nil => rfl
    | cons b r =>
        have hb : b ≠ '\n' := by simpa using ht
        have hcond : ¬('\r' = '\r' ∧ b = '\n') := fun hc => hb hc.2
        simp [normalizeNl, replaceCRLF, replaceCRchar, hcond, hb]
  · intro t
    exact normalizeNl_of_no_cr _ (normalizeNl_no_cr t)

/-- Witness for C7: the identity clause at a concrete CR-free text. -/
theorem c7_witness : normalizeNl ['a', '\n'] true = ['a', '\n'] :=
  c7_normalize_newlines.2.2.2.2 ['a', '\n'] (by decide)

/-- C1: for either archive kind, a member name matching no entry of the
listing makes `extractfile`, `read_bytes` and `read_text` fail with
`FileNotFoundError`; none of them returns a null, sentinel or empty-content
success.  The hypotheses cover archives with zero members and archives with
only unrelated members alike. -/
theorem c1_missing_member_not_found (tst : TarState) (zst : ZipState) (name : PStr)
    (h1 : ∀ m ∈ tst.members, m.name ≠ name) (h2 : ∀ m ∈ zst.members, m.name ≠ name) :
    tarExtractfile tst (.byName name) = .error .fileNotFound ∧
    tarReadBytes tst (.byName name) = .error .fileNotFound ∧
    (∀ nl, tarReadText tst (.byName name) nl = .error .fileNotFound) ∧
    zipExtractfile zst (.byName name) = .error .fileNotFound ∧
    zipReadBytes zst (.byName name) = .error .fileNotFound ∧
    (∀ nl, zipReadText zst (.byName name) nl = .error .fileNotFound) := by
  have hg := getmemberTar_eq_none tst name h1
  have hz := zipNameToInfo_eq_none zst name h2
  have ht : tarExtractfile tst (.byName name) = .error .fileNotFound := by
    simp [tarExtractfile, hg]
  have hze : zipExtractfile zst (.byName name) = .error .fileNotFound := by
    simp [zipExtractfile, hz]
  refine ⟨ht, ht, ?_, hze, hze, ?_⟩
  · intro nl
    unfold tarReadText tarReadBytes
    rw [ht]
    rfl
  · intro nl
    unfold zipReadText zipReadBytes
    rw [hze]
    rfl

/-- Witness for C1: a zero-member tar archive, a tar archive with one
unrelated member, and the zip counterparts, probed for `does/not/exist`. -/
theorem c1_witness :
    tarExtractfile ⟨[], none, 'r', false⟩ (.byName "does/not/exist".toList) =
      .error .fileNotFound ∧
    tarReadBytes ⟨[⟨"unrelated.txt".toList, .regular, [], [1], 0⟩], none, 'r', false⟩
      (.byName "does/not/exist".toList) = .error .fileNotFound ∧
    zipExtractfile ⟨[], false, none⟩ (.byName "does/not/exist".toList) =
      .error .fileNotFound ∧
    zipReadBytes ⟨[⟨"unrelated.txt".toList, [1]⟩], false, none⟩
      (.byName "does/not/exist".toList) = .error .fileNotFound :=
  ⟨(c1_missing_member_not_found ⟨[], none, 'r', false⟩ ⟨[], false, none⟩ _
      (by decide) (by decide)).1,
   (c1_missing_member_not_found ⟨[⟨"unrelated.txt".toList, .regular, [], [1], 0⟩], none, 'r', false⟩
      ⟨[], false, none⟩ _ (by decide) (by decide)).2.1,
   (c1_missing_member_not_found ⟨[], none, 'r', false⟩ ⟨[], false, none⟩ _
      (by decide) (by decide)).2.2.2.1,
   (c1_missing_member_not_found ⟨[], none, 'r', false⟩ ⟨[⟨"unrelated.txt".toList, [1]⟩], false, none⟩
      _ (by decide) (by decide)).2.2.2.2.1⟩

/-- C4 counterexample: on the index-style archive the claim fails — for a
directory member (a kind with no readable content), `ZipFile.extractfile`
returns a successful empty stream instead of failing with NotFound, both for
an info-object argument and for a name argument. -/
theorem c4_counterexample :
    zipExtractfile ⟨[⟨"d/".toList, []⟩], false, none⟩ (.byInfo ⟨"d/".toList, []⟩) =
      .ok [] ∧
    zipExtractfile ⟨[⟨"d/".toList, []⟩], false, none⟩ (.byName "d/".toList) = .ok [] ∧
    zipReadBytes ⟨[⟨"d/".toList, []⟩], false, none⟩ (.byName "d/".toList) = .ok [] := by
  decide

/-- C4 amended: only the tape-style `extractfile` fails with NotFound on a
member whose kind has no readable stream (directory or special file); the
index-style `extractfile` returns the stream `ZipFile.open` builds over the
member's stored data unconditionally — an empty stream for a directory
entry. -/
theorem c4_amended_streamless_kinds (tst : TarState) (m : TarMember)
    (hk : m.kind = .directory ∨ m.kind = .other)
    (zst : ZipState) (zm : ZipMember) :
    tarExtractfile tst (.byInfo m) = .error .fileNotFound ∧
    (∀ s m', getmemberTar tst s = some m' → (m'.kind = .directory ∨ m'.kind = .other) →
      tarExtractfile tst (.byName s) = .error .fileNotFound) ∧
    zipExtractfile zst (.byInfo zm) = .ok zm.content := by
  have hstream : ∀ (m' : TarMember), (m'.kind = .directory ∨ m'.kind = .other) →
      ∀ fuel, tarMemberStream tst fuel m' = .ok none := by
    intro m' hk' fuel
    obtain ⟨n, k, l, c, mt⟩ := m'
    rcases hk' with h | h <;> (simp only at h; subst h) <;> cases fuel <;> rfl
  refine ⟨?_, ?_, rfl⟩
  · simp [tarExtractfile, hstream m hk]
  · intro s m' hg hk'
    simp [tarExtractfile, hg, hstream m' hk']

/-- Witness for C4's amended theorem: a concrete one-directory tar archive
and a concrete zip directory entry. -/
theorem c4_witness :
    tarExtractfile ⟨[⟨"d".toList, .directory, [], [], 0⟩], none, 'r', false⟩
      (.byInfo ⟨"d".toList, .directory, [], [], 0⟩) = .error .fileNotFound :=
  (c4_amended_streamless_kinds ⟨[⟨"d".toList, .directory, [], [], 0⟩], none, 'r', false⟩
    ⟨"d".toList, .directory, [], [], 0⟩ (Or.inl rfl) ⟨[], false, none⟩ ⟨[], []⟩).1

/-- C2 counterexample: when the caller omits the filter argument, the policy
in effect for tar extraction is not data-only — on either branch of the
PEP 706 compatibility shim. -/
theorem c2_counterexample :
    tarEffectivePolicy false none ≠ FilterPolicy.dataOnly ∧
    tarEffectivePolicy true none ≠ FilterPolicy.dataOnly := by
  decide

/-- C2 amended: the extraction entry points do not apply the data-only
policy by default.  `TarFile.extract`/`extractall` forward the caller's
filter unchanged on PEP 706 Pythons (so omitting it yields the stdlib
default, `fully_trusted`) and drop it entirely on the shim branch (an
unfiltered, fully-trusted extraction, where the module's fallback filters
are all the identity); `ZipFile` extraction has no filter mechanism. -/
theorem c2_amended_default_filter :
    (∀ b, tarEffectivePolicy b none = .fullyTrusted) ∧
    (∀ f, tarForwardedFilter true f = f) ∧
    (∀ f, tarForwardedFilter false f = none) ∧
    (∀ m d, fullyTrustedFilterFallback m d = m ∧ tarFilterFallback m d = m ∧
      dataFilterFallback m d = m) :=
  ⟨fun b => by cases b <;> rfl, fun f => rfl, fun f => rfl, fun m d => ⟨rfl, rfl, rfl⟩⟩

/-- The parse step on an uncompressed source always either succeeds or fails
with a `TarError`: there is no other outcome for in-memory byte sources. -/
theorem taropen_ok_or_tarError (bs : Bytes) :
    taropen bs = .ok () ∨ taropen bs = .error .tarError := by
  unfold taropen
  split
  · exact Or.inr rfl
  split
  · exact Or.inr rfl
  dsimp only
  split
  · exact Or.inl rfl
  split
  · exact Or.inl rfl
  · exact Or.inr rfl

/-- A 512-byte header block that passes the checksum validation: all zeros
except the checksum field, which holds octal 400 = 256, the unsigned
checksum of such a block (the eight field bytes counting as spaces).  Used
to build the truncated-archive probe input. -/
def validTarHeader : Bytes :=
  List.replicate 148 0 ++ [0x20, 0x20, 0x20, 0x20, 0x34, 0x30, 0x30, 0]
    ++ List.replicate 356 0

/-- C3 counterexample: `is_tarfile` is not total — on a source that is a
nonexistent path it propagates the `FileNotFoundError` from `open` (only
`tarfile.TarError` is caught), instead of returning `false`. -/
theorem c3_counterexample : is_tarfile (.path false []) = .error .osError := by
  decide

set_option maxRecDepth 10000 in
/-- C3 amended: for in-memory byte sources `is_tarfile` is total (it returns
a Boolean and never propagates an exception), returning `false` for an empty
source, a source of random non-archive bytes, a zip-format source and a
source truncated inside the first header block, and `true` for a minimal
valid archive of zero members; for path sources it behaves like the byte
source when the path exists, and propagates `OSError` when it does not. -/
theorem c3_amended_prober_totality :
    (∀ bs, is_tarfile (.fileobj bs) = .ok true ∨ is_tarfile (.fileobj bs) = .ok false) ∧
    (∀ bs present, is_tarfile (.path present bs) =
      if present then is_tarfile (.fileobj bs) else .error .osError) ∧
    is_tarfile (.fileobj []) = .ok false ∧
    is_tarfile (.fileobj (List.replicate 512 0x41)) = .ok false ∧
    is_tarfile (.fileobj ([0x50, 0x4B, 0x05, 0x06] ++ List.replicate 18 0)) = .ok false ∧
    is_tarfile (.fileobj (validTarHeader.take 300)) = .ok false ∧
    is_tarfile (.fileobj (List.replicate 1024 0)) = .ok true := by
  refine ⟨?_, ?_, by decide, by decide, by decide, by decide, by decide⟩
  · intro bs
    rcases taropen_ok_or_tarError bs with h | h
    · left; simp [is_tarfile, tarOpenSource, h]
    · right; simp [is_tarfile, tarOpenSource, h]
  · intro bs present
    cases present <;> rfl

/-- C5 counterexample filesystem: the zip archive's own backing file. -/
def c5Fs : Fs := fun p => if p = "/a/archive.zip".toList then .file [0x50, 0x4B] 0 else .missing

/-- C5 counterexample archive: an open zip handle over that backing file. -/
def c5Zip : ZipState := ⟨[], false, some "/a/archive.zip".toList⟩

/-- C5 counterexample: `ZipFile.write_file` has no self-archiving guard —
handed the archive's own backing path it happily appends a member, where the
claim requires the member list to stay unchanged. -/
theorem c5_counterexample :
    zipWriteFile c5Fs c5Zip "/a/archive.zip".toList none (some 0) =
      .ok ⟨[⟨"a/archive.zip".toList, [0x50, 0x4B]⟩], false, some "/a/archive.zip".toList⟩ ∧
    zipWriteFile c5Fs c5Zip "/a/archive.zip".toList none (some 0) ≠ .ok c5Zip := by
  decide

/-- C5 amended: only the tape-style archive has the self-archiving guard.
`TarFile.write_file` handed the archive's own backing path (on both its
`mtime` branches — the explicit guard in the source and the one inside
`tarfile.TarFile.add`) performs no write and returns with the member list
unchanged; the index-style `ZipFile.write_file` has no such guard and
archives its own backing file (see the counterexample). -/
theorem c5_amended_tar_self_guard (fs : Fs) (st : TarState) (f : PStr)
    (arc : Option PStr) (mt : Option Int)
    (h1 : osIsfile fs f = true) (h2 : st.name = some (abspath f))
    (h3 : st.closed = false) (h4 : st.mode ∈ ['a', 'w', 'x']) :
    tarWriteFile fs st f arc mt = .ok st := by
  have hchk : tarCheck st ['a', 'w', 'x'] = .ok () := by
    simp [tarCheck, h3, h4]
  cases mt with
  | none => simp [tarWriteFile, h1, tarAdd, hchk, h2]
  | some m => simp [tarWriteFile, h1, hchk, h2]

/-- Witness filesystem for C5: a tar archive file at its own recorded path. -/
def c5TarFs : Fs := fun p => if p = "/a/archive.tar".toList then .file [1] 0 else .missing

/-- Witness for C5's amended theorem: writing `/a/archive.tar` into the tar
archive backed by `/a/archive.tar` is a silent no-op. -/
theorem c5_witness :
    tarWriteFile c5TarFs ⟨[], some "/a/archive.tar".toList, 'a', false⟩
      "/a/archive.tar".toList none none =
      .ok ⟨[], some "/a/archive.tar".toList, 'a', false⟩ :=
  c5_amended_tar_self_guard c5TarFs ⟨[], some "/a/archive.tar".toList, 'a', false⟩
    "/a/archive.tar".toList none none (by decide) (by decide) rfl (by decide)

/-- C6: while a per-entry writing handle is open (`_writing` true),
`ZipFile.write_file` fails with `ValueError` as its very first step, before
touching the archive or the filesystem; once the handle is finalized
(`_writing` reset), the same call succeeds and appends the member. -/
theorem c6_write_conflict (fs : Fs) (st : ZipState) (f : PStr) (arc : Option PStr)
    (mt : Int) (c : Bytes) (mt0 : Int)
    (h1 : st.writing = true) (h2 : fs f = .file c mt0) :
    zipWriteFile fs st f arc (some mt) = .error .valueError ∧
    zipWriteFile fs (zipFinalizeCursor st) f arc (some mt) =
      .ok { st with writing := false,
                    members := st.members ++ [⟨zipArcnameOf f arc, c⟩] } := by
  constructor
  · simp [zipWriteFile, h1]
  · simp [zipWriteFile, zipFinalizeCursor, osIsfile, h2]

/-- Witness filesystem for C6. -/
def c6Fs : Fs := fun p => if p = "/s/f.txt".toList then .file [2] 1 else .missing

/-- Witness for C6: a concrete conflicted call failing, and the same call
succeeding after the cursor is finalized. -/
theorem c6_witness :
    zipWriteFile c6Fs ⟨[], true, none⟩ "/s/f.txt".toList none (some 7) =
      .error .valueError ∧
    zipWriteFile c6Fs (zipFinalizeCursor ⟨[], true, none⟩) "/s/f.txt".toList none (some 7) =
      .ok ⟨[⟨"s/f.txt".toList, [2]⟩], false, none⟩ := by
  have h := c6_write_conflict c6Fs ⟨[], true, none⟩ "/s/f.txt".toList none 7 [2] 1
    rfl (by decide)
  exact ⟨h.1, by rw [h.2]; decide⟩

/-- C8: a source path that does not resolve to a regular file (a directory,
a special file, or a nonexistent path — all making `os.path.isfile` false)
makes `write_file` on either archive kind fail with `IsADirectoryError`,
adding no member (for the index-style archive this is the check right after
the write-conflict one, hence the no-open-cursor hypothesis). -/
theorem c8_write_file_requires_regular (fs : Fs) (tst : TarState) (zst : ZipState)
    (f : PStr) (arc : Option PStr) (mt : Option Int)
    (h1 : osIsfile fs f = false) (h2 : zst.writing = false) :
    tarWriteFile fs tst f arc mt = .error .isADirectoryError ∧
    zipWriteFile fs zst f arc mt = .error .isADirectoryError := by
  constructor
  · simp [tarWriteFile, h1]
  · simp [zipWriteFile, h1, h2]

/-- Witness filesystem for C8: a directory at `/d`, nothing else. -/
def c8Fs : Fs := fun p => if p = "/d".toList then .dir else .missing

/-- Witness for C8: writing a directory path and a nonexistent path. -/
theorem c8_witness :
    tarWriteFile c8Fs ⟨[], none, 'w', false⟩ "/d".toList none none =
      .error .isADirectoryError ∧
    zipWriteFile c8Fs ⟨[], false, none⟩ "/nope".toList none none =
      .error .isADirectoryError :=
  ⟨(c8_write_file_requires_regular c8Fs ⟨[], none, 'w', false⟩ ⟨[], false, none⟩
      "/d".toList none none (by decide) rfl).1,
   (c8_write_file_requires_regular c8Fs ⟨[], none, 'w', false⟩ ⟨[], false, none⟩
      "/nope".toList none none (by decide) rfl).2⟩

theorem splitSlash_ne_nil (s : PStr) : splitSlash s ≠ [] := by
  cases s with
  | nil => simp [splitSlash]
  | cons c r =>
      by_cases hc : c = '/'
      · simp [splitSlash, hc]
      · simp only [splitSlash, if_neg hc]
        cases h : splitSlash r <;> simp

theorem splitSlash_no_slash (s : PStr) : ∀ p ∈ splitSlash s, '/' ∉ p := by
  induction s with
  | nil =>
      intro p hp
      simp [splitSlash] at hp
      subst hp
      simp
  | cons c r ih =>
      intro p hp
      by_cases hc : c = '/'
      · rw [splitSlash, if_pos hc] at hp
        rcases List.mem_cons.1 hp with h | h
        · subst h; simp
        · exact ih p h
      · obtain ⟨h0, t0, hsr⟩ : ∃ h0 t0, splitSlash r = h0 :: t0 := by
          cases h : splitSlash r with
          | nil => exact absurd h (splitSlash_ne_nil r)
          | cons a b => exact ⟨a, b, rfl⟩
        rw [splitSlash, if_neg hc, hsr] at hp
        rcases List.mem_cons.1 hp with h | h
        · subst h
          intro hm
          rcases List.mem_cons.1 hm with h' | h'
          · exact hc h'.symm
          · exact ih h0 (hsr ▸ List.mem_cons_self h0 t0) h'
        · exact ih p (hsr ▸ List.mem_cons_of_mem h0 h)

/-- The invariant the amended C9 claims of every stored component. -/
def CleanComp (c : PStr) : Prop :=
  c ≠ [] ∧ c ≠ ['.'] ∧ c ≠ ['.', '.'] ∧ '/' ∉ c

theorem normStep_clean (acc : List PStr) (comp : PStr)
    (hacc : ∀ x ∈ acc, CleanComp x) (hcomp : '/' ∉ comp) :
    ∀ x ∈ normStep true acc comp, CleanComp x := by
  unfold normStep
  split
  · exact hacc
  case isFalse hne =>
    split
    case isTrue hap =>
      intro x hx
      rcases List.mem_append.1 hx with h | h
      · exact hacc x h
      · have hx' : x = comp := by simpa using h
        subst hx'
        have h1 : x ≠ [] := fun e => hne (Or.inl e)
        have h2 : x ≠ ['.'] := fun e => hne (Or.inr e)
        have h3 : x ≠ ['.', '.'] := by
          rcases hap with h | h | h
          · simpa using h
          · simp at h
          · exact absurd (hacc _ (List.mem_of_getLast?_eq_some h)).2.2.1 (by simp)
        exact ⟨h1, h2, h3, hcomp⟩
    case isFalse =>
      split
      · exact fun x hx => hacc x (List.dropLast_subset _ hx)
      · exact hacc

theorem foldl_normStep_clean (comps : List PStr) (hns : ∀ p ∈ comps, '/' ∉ p)
    (acc : List PStr) (hacc : ∀ x ∈ acc, CleanComp x) :
    ∀ x ∈ comps.foldl (normStep true) acc, CleanComp x := by
  induction comps generalizing acc with
  | nil => exact hacc
  | cons c r ih =>
      exact ih (fun p hp => hns p (List.mem_cons_of_mem c hp)) _
        (normStep_clean acc c hacc (hns c (List.mem_cons_self c r)))

theorem dropWhile_head_false {α : Type} {p : α → Bool} :
    ∀ (l : List α) (ch : α) (ct : List α), l.dropWhile p = ch :: ct → p ch = false := by
  intro l
  induction l with
  | nil => intro ch ct h; simp [List.dropWhile] at h
  | cons a l' ih =>
      intro ch ct h
      rw [List.dropWhile] at h
      cases hpa : p a with
      | true => rw [hpa] at h; exact ih ch ct h
      | false =>
          rw [hpa] at h
          cases h
          exact hpa

theorem dropWhile_replicate_cons (k : Nat) (ch : Char) (ct : PStr) (h : ch ≠ '/') :
    (List.replicate k '/' ++ ch :: ct).dropWhile (· = '/') = ch :: ct := by
  induction k with
  | zero => simp [List.dropWhile, h]
  | succ n ih => simpa [List.replicate_succ, List.dropWhile] using ih

theorem joinSlash_cons (c : PStr) (rest : List PStr) :
    ∃ t, joinSlash (c :: rest) = c ++ t := by
  cases rest with
  | nil => exact ⟨[], by simp [joinSlash, List.intersperse]⟩
  | cons r0 rr => exact ⟨'/' :: joinSlash (r0 :: rr), by simp [joinSlash, List.intersperse]⟩

theorem zipArcnameNormalize_clean (f : PStr) (h1 : f.take 1 = ['/'])
    (h2 : zipArcnameNormalize f ≠ []) :
    ∃ comps, comps ≠ [] ∧ zipArcnameNormalize f = joinSlash comps ∧
      ∀ c ∈ comps, CleanComp c := by
  have hf : f ≠ [] := by
    intro e
    rw [e] at h1
    simp at h1
  have hroot : initSlashes f ≠ 0 := by
    unfold initSlashes
    by_cases h3 : f.take 3 = ['/', '/', '/']
    · simp [h3]
    by_cases h4 : f.take 2 = ['/', '/']
    · simp [h3, h4]
    simp [h3, h4, h1]
  have hrw : zipArcnameNormalize f =
      (List.replicate (initSlashes f) '/'
        ++ joinSlash ((splitSlash f).foldl (normStep true) [])).dropWhile (· = '/') := by
    unfold zipArcnameNormalize posixNormpath
    rw [if_neg hf]
    dsimp only
    rw [decide_eq_true hroot]
    have hne : List.replicate (initSlashes f) '/'
        ++ joinSlash ((splitSlash f).foldl (normStep true) []) ≠ [] := by
      intro e
      rcases List.append_eq_nil.mp e with ⟨e1, -⟩
      exact hroot (by simpa using congrArg List.length e1)
    rw [if_neg hne]
  have hclean : ∀ x ∈ (splitSlash f).foldl (normStep true) [], CleanComp x :=
    foldl_normStep_clean (splitSlash f) (splitSlash_no_slash f) [] (by simp)
  cases hcomps : (splitSlash f).foldl (normStep true) [] with
  | nil =>
      exfalso
      apply h2
      rw [hrw, hcomps]
      simp [joinSlash, List.intersperse, List.dropWhile_eq_nil_iff]
  | cons c0 rest =>
      have hc0 : CleanComp c0 := by
        rw [hcomps] at hclean
        exact hclean c0 (List.mem_cons_self c0 rest)
      obtain ⟨ch, ct, hc0eq⟩ : ∃ ch ct, c0 = ch :: ct := by
        cases c0 with
        | nil => exact absurd rfl hc0.1
        | cons a b => exact ⟨a, b, rfl⟩
      have hch : ch ≠ '/' := by
        intro e
        exact hc0.2.2.2 (hc0eq ▸ (e ▸ List.mem_cons_self ch ct))
      obtain ⟨t, hjoin⟩ := joinSlash_cons c0 rest
      refine ⟨c0 :: rest, by simp, ?_, by rw [hcomps] at hclean; exact hclean⟩
      rw [hrw, hcomps, hjoin, hc0eq]
      rw [List.cons_append]
      rw [dropWhile_replicate_cons _ ch (ct ++ t) hch]

/-- C9 counterexample filesystem. -/
def c9Fs : Fs := fun p =>
  if p = "/tmp/sub/a.txt".toList then .file [7] 3
  else if p = "/tmp/./sub//a.txt".toList then .file [7] 3
  else .missing

/-- C9 counterexample: the tape-style `write_file` does not collapse `.`
segments or redundant separators — the absolute source path
`/tmp/./sub//a.txt` with no explicit arcname is stored as
`tmp/./sub//a.txt`, not the collapsed `tmp/sub/a.txt` the claim requires. -/
theorem c9_counterexample :
    tarWriteFile c9Fs ⟨[], none, 'w', false⟩ "/tmp/./sub//a.txt".toList none (some 5) =
      .ok ⟨[⟨"tmp/./sub//a.txt".toList, .regular, [], [7], 5⟩], none, 'w', false⟩ ∧
    "tmp/./sub//a.txt".toList ≠ "tmp/sub/a.txt".toList := by
  decide

/-- C9 amended: the index-style `write_file` stores members exactly as the
claim says — the name of a member written from an absolute source path with
no explicit arcname has its drive dropped, its `.` segments and redundant
separators collapsed, and no leading separator (every stored component is
nonempty and neither `.` nor `..`, and contains no separator).  The
tape-style `write_file` only strips the drive and the leading separators
(`gettarinfo` keeps interior `.` segments and doubled slashes).  On the
spec's example `/tmp/sub/a.txt` both kinds store `tmp/sub/a.txt`. -/
theorem c9_arcname_normalization :
    (∀ f, f.take 1 = ['/'] → zipArcnameNormalize f ≠ [] →
      ∃ comps, comps ≠ [] ∧ zipArcnameNormalize f = joinSlash comps ∧
        ∀ c ∈ comps, c ≠ [] ∧ c ≠ ['.'] ∧ c ≠ ['.', '.'] ∧ '/' ∉ c) ∧
    (∀ f arc ch ct, tarArcnameOf f arc = ch :: ct → ch ≠ '/') ∧
    (∀ f, tarArcnameOf f none = f.dropWhile (· = '/')) ∧
    zipArcnameOf "/tmp/sub/a.txt".toList none = "tmp/sub/a.txt".toList ∧
    tarArcnameOf "/tmp/sub/a.txt".toList none = "tmp/sub/a.txt".toList ∧
    zipWriteFile c9Fs ⟨[], false, none⟩ "/tmp/sub/a.txt".toList none (some 5) =
      .ok ⟨[⟨"tmp/sub/a.txt".toList, [7]⟩], false, none⟩ ∧
    tarWriteFile c9Fs ⟨[], none, 'w', false⟩ "/tmp/sub/a.txt".toList none (some 5) =
      .ok ⟨[⟨"tmp/sub/a.txt".toList, .regular, [], [7], 5⟩], none, 'w', false⟩ := by
  refine ⟨zipArcnameNormalize_clean, ?_, fun f => rfl, by decide, by decide, by decide, by decide⟩
  intro f arc ch ct h
  have := dropWhile_head_false _ ch ct h
  simpa using this

/-- Witness for C9's amended theorem: its tape-style no-leading-separator
clause applied to the stored name of `/tmp/sub/a.txt`. -/
theorem c9_witness : 't' ≠ '/' :=
  c9_arcname_normalization.2.1 "/tmp/sub/a.txt".toList none 't' "mp/sub/a.txt".toList
    (by decide)

/-- C10: with `normalize_nl` left at its default `False`, `_normalize_nl` is
the identity, so `read_text` on either archive kind is exactly the UTF-8
decoding of `read_bytes`, with no character altered. -/
theorem c10_read_text_default_is_decode :
    (∀ t : Text, normalizeNl t false = t) ∧
    (∀ st arg, tarReadText st arg false = (tarReadBytes st arg).bind utf8Decode) ∧
    (∀ st arg, zipReadText st arg false = (zipReadBytes st arg).bind utf8Decode) := by
  refine ⟨fun t => rfl, ?_, ?_⟩
  · intro st arg
    unfold tarReadText
    cases tarReadBytes st arg with
    | error e => rfl
    | ok bs =>
        show (utf8Decode bs).bind (fun t => pure (normalizeNl t false)) = utf8Decode bs
        cases utf8Decode bs with
        | error e => rfl
        | ok t => rfl
  · intro st arg
    unfold zipReadText
    cases zipReadBytes st arg with
    | error e => rfl
    | ok bs =>
        show (utf8Decode bs).bind (fun t => pure (normalizeNl t false)) = utf8Decode bs
        cases utf8Decode bs with
        | error e => rfl
        | ok t => rfl
